import Mathlib

/-!
# Verification of the Pare email suite against its specification

This file gives a shallow embedding of the parts of the Pare repository that
the specification's claims talk about, and settles each claim as a theorem.

Two groups of definitions appear below:

* Frontend code present in the repository (`frontend/src/components/EmailViewer.tsx`
  and the email-card component in `frontend/src/pages/LoginPage.tsx`): the
  base64url decoder, the two HTML-extraction traversals over the Gmail payload
  tree, and the DOM sanitiser.  These are translated line by line from the
  TypeScript source.
* The background pipeline (Job Manager, Sync Job, Batch Classifier, Result
  Writer) lives in the Flask backend, which is not part of the source tree we
  were given; only its frontend callers are.  Those definitions are modelled
  from the specification text and are marked `Modelled from the spec:` in
  their doc comments.
-/

namespace Pare

/-! ## Gmail payload trees

A Gmail raw message payload is a tree of MIME parts.  Each part has an
optional `mimeType`, an optional `body.data` (base64url-encoded content) and a
list of child `parts`.  This mirrors the JSON shape consumed by
`extractHtmlFromRawJson` in `EmailViewer.tsx` and in the email-card component
of `LoginPage.tsx`. -/

inductive MimePart : Type where
| node (mimeType : Option String) (data : Option String) (parts : List MimePart) : MimePart

/-- `String.prototype.startsWith`, modelled character by character. -/
def jsStartsWith (s pre : String) : Bool :=
  s.data.take pre.data.length == pre.data

/-- JavaScript truthiness of an optional string: `null`/`undefined` and the
empty string are falsy, every other string is truthy. -/
def truthyOpt : Option String → Bool
| none => false
| some s => !(s == "")

/-! ## The base64url decoder (`decodeBase64` in `EmailViewer.tsx`, inlined in
the email-card `extractHtml` of `LoginPage.tsx`)

The decoder maps the URL-safe alphabet back to standard base64, appends `=`
padding up to a multiple of four, decodes with the platform `atob`, and
decodes the resulting bytes as UTF-8 with `fatal: false`.  `atob` and
`TextDecoder` are platform primitives; they are modelled here by the
WHATWG forgiving-base64 algorithm and a lossy UTF-8 decoder. -/

/-- The character map applied by the two `.replace` calls: `-` becomes `+`
and `_` becomes `/`; every other character is unchanged. -/
def b64UrlChar (c : Char) : Char :=
  if c == '-' then '+' else if c == '_' then '/' else c

/-- First stage of the decoder: map the URL-safe alphabet to the standard
base64 alphabet. -/
def b64UrlToStd (s : String) : String :=
  String.mk (s.data.map b64UrlChar)

/-- Second stage of the decoder: append `"=".repeat(4 - length % 4)` unless
the length is already a multiple of four. -/
def b64Padded (s : String) : String :=
  let base64 := b64UrlToStd s
  let padding := 4 - base64.length % 4
  if padding != 4 then base64 ++ String.mk (List.replicate padding '=') else base64

/-- ASCII whitespace stripped by forgiving-base64. -/
def isB64Ws (c : Char) : Bool :=
  c == ' ' || c == '\t' || c == '\n' || c == '\r' || c == '\x0c'

/-- Value of a character in the standard base64 alphabet, `none` outside it. -/
def b64Val (c : Char) : Option Nat :=
  if 65 ≤ c.toNat ∧ c.toNat ≤ 90 then some (c.toNat - 65)
  else if 97 ≤ c.toNat ∧ c.toNat ≤ 122 then some (c.toNat - 97 + 26)
  else if 48 ≤ c.toNat ∧ c.toNat ≤ 57 then some (c.toNat - 48 + 52)
  else if c == '+' then some 62
  else if c == '/' then some 63
  else none

/-- Reassemble 6-bit values into bytes, four values to three bytes, with the
forgiving-base64 treatment of a final group of two or three values.  A final
group of one value is an error. -/
def b64Quads : List Nat → Option (List Nat)
| [] => some []
| [_] => none
| [a, b] => some [a * 4 + b / 16]
| [a, b, c] => some [a * 4 + b / 16, (b % 16) * 16 + c / 4]
| a :: b :: c :: d :: rest =>
    (b64Quads rest).map (fun tl => (a * 4 + b / 16) :: ((b % 16) * 16 + c / 4) :: ((c % 4) * 64 + d) :: tl)

/-- Model of the platform `atob` (WHATWG forgiving-base64): strip ASCII
whitespace, strip up to two trailing `=` when the length is a multiple of
four, reject a length congruent to 1 mod 4 and any character outside the
alphabet, then decode.  Returns the decoded bytes, `none` on failure. -/
def atobBytes (s : String) : Option (List Nat) :=
  let cs := s.data.filter (fun c => !isB64Ws c)
  let cs :=
    if cs.length % 4 == 0 then
      if (cs.reverse.take 2) == ['=', '='] then cs.dropLast.dropLast
      else if cs.getLast? == some '=' then cs.dropLast
      else cs
    else cs
  if cs.length % 4 == 1 then none
  else
    match cs.mapM b64Val with
    | none => none
    | some vals => b64Quads vals

/-- The replacement character U+FFFD emitted by a lossy UTF-8 decoder. -/
def replChar : Char := Char.ofNat 0xFFFD

/-- Whether a byte is a UTF-8 continuation byte. -/
def utf8Cont (b : Nat) : Bool := 0x80 ≤ b && b ≤ 0xBF

/-- Model of `TextDecoder("utf-8", { fatal: false })`: WHATWG UTF-8 decode
with U+FFFD substitution for invalid sequences. -/
def utf8Chars : List Nat → List Char
| [] => []
| b :: rest =>
  if b ≤ 0x7F then Char.ofNat b :: utf8Chars rest
  else if 0xC2 ≤ b && b ≤ 0xDF then
    match rest with
    | [] => [replChar]
    | b2 :: rest2 =>
      if utf8Cont b2 then Char.ofNat ((b - 0xC0) * 64 + (b2 - 0x80)) :: utf8Chars rest2
      else replChar :: utf8Chars (b2 :: rest2)
  else if 0xE0 ≤ b && b ≤ 0xEF then
    match rest with
    | [] => [replChar]
    | b2 :: rest2 =>
      let lo2 := if b == 0xE0 then 0xA0 else 0x80
      let hi2 := if b == 0xED then 0x9F else 0xBF
      if lo2 ≤ b2 && b2 ≤ hi2 then
        match rest2 with
        | [] => [replChar]
        | b3 :: rest3 =>
          if utf8Cont b3 then
            Char.ofNat ((b - 0xE0) * 4096 + (b2 - 0x80) * 64 + (b3 - 0x80)) :: utf8Chars rest3
          else replChar :: utf8Chars (b3 :: rest3)
      else replChar :: utf8Chars (b2 :: rest2)
  else if 0xF0 ≤ b && b ≤ 0xF4 then
    match rest with
    | [] => [replChar]
    | b2 :: rest2 =>
      let lo2 := if b == 0xF0 then 0x90 else 0x80
      let hi2 := if b == 0xF4 then 0x8F else 0xBF
      if lo2 ≤ b2 && b2 ≤ hi2 then
        match rest2 with
        | [] => [replChar]
        | b3 :: rest3 =>
          if utf8Cont b3 then
            match rest3 with
            | [] => [replChar]
            | b4 :: rest4 =>
              if utf8Cont b4 then
                Char.ofNat ((b - 0xF0) * 262144 + (b2 - 0x80) * 4096 + (b3 - 0x80) * 64 + (b4 - 0x80))
                  :: utf8Chars rest4
              else replChar :: utf8Chars (b4 :: rest4)
          else replChar :: utf8Chars (b3 :: rest3)
      else replChar :: utf8Chars (b2 :: rest2)
  else replChar :: utf8Chars rest

/-- Lossy UTF-8 decoding of a byte sequence to a string. -/
def utf8LossyDecode (bs : List Nat) : String := String.mk (utf8Chars bs)

/-- `decodeBase64` from `EmailViewer.tsx` (the email-card component in
`LoginPage.tsx` inlines the identical code): map the URL-safe alphabet,
pad with `=` to a multiple of four, `atob`, and decode the bytes as UTF-8;
the surrounding `try`/`catch` turns any decoding failure into `null`. -/
def decodeBase64 (data : String) : Option String :=
  let base64 := String.mk ((data.data.map fun c => if c == '-' then '+' else c).map
    fun c => if c == '_' then '/' else c)
  let padding := 4 - base64.length % 4
  let padded := if padding != 4 then base64 ++ String.mk (List.replicate padding '=') else base64
  match atobBytes padded with
  | some bytes => some (utf8LossyDecode bytes)
  | none => none

/-! ## The two HTML-extraction traversals

`EmailViewer.tsx` and the email-card component of `LoginPage.tsx` each define
an inner recursive `extractHtml` over the payload tree.  The viewer variant
returns a pair `{html, text}`; its loop over child parts overwrites the html
slot on every child whose result has truthy html (so the *last* such child
wins) and keeps the *first* truthy text.  The card variant returns the first
truthy result found in preorder and never looks at `text/plain` parts. -/

/-- The result record `{ html, text }` of the viewer's `extractHtml`. -/
structure ExtractResult where
  html : Option String
  text : Option String
deriving Repr, DecidableEq

/-- The `mimeType` field of a part, defaulted to `""` as in
`part.mimeType || ""`. -/
def MimePart.mime : MimePart → String
| .node mt _ _ => mt.getD ""

/-- The `body.data` field of a part (absent body yields absent data). -/
def MimePart.bodyData : MimePart → Option String
| .node _ d _ => d

/-- The child parts of a part, defaulted to `[]` as in `part.parts || []`. -/
def MimePart.children : MimePart → List MimePart
| .node _ _ ps => ps

mutual

/-- `extractHtml` from `EmailViewer.tsx` (lines 46-109): if the part is a
`text/html` part with truthy data whose base64 decodes to truthy content,
return it as html; else if it is such a `text/plain` part, return the content
as text; otherwise scan the child parts. -/
def viewerExtract : MimePart → ExtractResult
| .node mt d ps =>
  let m := mt.getD ""
  if jsStartsWith m "text/html" && truthyOpt d && truthyOpt (decodeBase64 (d.getD "")) then
    { html := decodeBase64 (d.getD ""), text := none }
  else if jsStartsWith m "text/plain" && truthyOpt d && truthyOpt (decodeBase64 (d.getD "")) then
    { html := none, text := decodeBase64 (d.getD "") }
  else
    viewerScan ps none none
termination_by structural p => p

/-- The `for (const p of parts)` loop of the viewer's `extractHtml`: the html
accumulator is overwritten by every child with truthy html, the text
accumulator keeps the first truthy text of a child without truthy html. -/
def viewerScan : List MimePart → Option String → Option String → ExtractResult
| [], h, t => { html := h, text := t }
| p :: ps, h, t =>
  let r := viewerExtract p
  if truthyOpt r.html then viewerScan ps r.html t
  else if truthyOpt r.text && !truthyOpt t then viewerScan ps h r.text
  else viewerScan ps h t
termination_by structural ps h t => ps

end

/-- The tail of the viewer's `extractHtmlFromRawJson` applied to the payload:
`result.html || result.text` with JavaScript `||` semantics. -/
def viewerExtractTop (p : MimePart) : Option String :=
  let r := viewerExtract p
  if truthyOpt r.html then r.html else r.text

mutual

/-- `extractHtml` from the email-card component of `LoginPage.tsx`
(lines 687-728): if the part is a `text/html` part with truthy data, return
the result of decoding it (`null` if decoding throws, without descending into
child parts); otherwise scan the child parts for the first truthy result. -/
def cardExtract : MimePart → Option String
| .node mt d ps =>
  let m := mt.getD ""
  if jsStartsWith m "text/html" && truthyOpt d then
    decodeBase64 (d.getD "")
  else
    cardScan ps
termination_by structural p => p

/-- The `for (const p of parts)` loop of the card's `extractHtml`: return the
first child whose recursive result is truthy. -/
def cardScan : List MimePart → Option String
| [] => none
| p :: ps =>
  let h := cardExtract p
  if truthyOpt h then h else cardScan ps
termination_by structural ps => ps

end

/-! ## The specification's description of the operation

The specification describes the find-the-HTML-part operation as "a pure
function over a tree-shaped payload returning the first matching leaf by MIME
type".  The following definitions follow the specification's words, to be
compared with the functions translated from the source. -/

mutual

/-- The operation as the specification words it: return the decoded content
of the first part (in depth-first preorder) whose MIME type matches
`text/html` and which carries data, or `null` when no part of the payload
matches. -/
def specFirstHtml : MimePart → Option String
| .node mt d ps =>
  let m := mt.getD ""
  if jsStartsWith m "text/html" && truthyOpt d then
    decodeBase64 (d.getD "")
  else
    specFirstHtmlScan ps
termination_by structural p => p

/-- Depth-first left-to-right search over the child parts, keeping the first
part whose subtree contains a match. -/
def specFirstHtmlScan : List MimePart → Option String
| [] => none
| p :: ps =>
  match specFirstHtml p with
  | some h => some h
  | none => specFirstHtmlScan ps
termination_by structural ps => ps

end

/-! ## Payload predicates used to classify inputs -/

/-- A part is an html hit when its MIME type starts with `text/html` and its
data is truthy. -/
def isHtmlHit (p : MimePart) : Bool :=
  jsStartsWith p.mime "text/html" && truthyOpt p.bodyData

/-- A part is a plain-text hit when its MIME type starts with `text/plain`
and its data is truthy. -/
def isPlainHit (p : MimePart) : Bool :=
  jsStartsWith p.mime "text/plain" && truthyOpt p.bodyData

mutual

/-- Number of html hits in the whole payload tree. -/
def htmlHitCount : MimePart → Nat
| .node mt d ps => (if isHtmlHit (.node mt d ps) then 1 else 0) + htmlHitCountList ps
termination_by structural p => p

/-- Number of html hits in a forest of payload trees. -/
def htmlHitCountList : List MimePart → Nat
| [] => 0
| p :: ps => htmlHitCount p + htmlHitCountList ps
termination_by structural ps => ps

end

mutual

/-- Every html hit in the tree has data that decodes to truthy content. -/
def htmlDecodesOk : MimePart → Bool
| .node mt d ps =>
  (!(isHtmlHit (.node mt d ps)) || truthyOpt (decodeBase64 (d.getD ""))) && htmlDecodesOkList ps
termination_by structural p => p

/-- `htmlDecodesOk` over a forest. -/
def htmlDecodesOkList : List MimePart → Bool
| [] => true
| p :: ps => htmlDecodesOk p && htmlDecodesOkList ps
termination_by structural ps => ps

end

mutual

/-- No part of the tree is a plain-text hit. -/
def noPlainHit : MimePart → Bool
| .node mt d ps => !(isPlainHit (.node mt d ps)) && noPlainHitList ps
termination_by structural p => p

/-- `noPlainHit` over a forest. -/
def noPlainHitList : List MimePart → Bool
| [] => true
| p :: ps => noPlainHit p && noPlainHitList ps
termination_by structural ps => ps

end

/-! ## Call depth of the viewer traversal, and a fuel-bounded evaluator

The specification asks for an "iterative (not unbounded-recursive) traversal
to bound stack depth on adversarial payloads".  The source traversal is
recursive: each nested part costs one stack frame.  `viewerDepth` computes the
exact nesting depth of recursive `extractHtml` calls the source performs, and
`viewerExtractFuel` evaluates the traversal under an explicit stack bound. -/

mutual

/-- Depth of the deepest chain of recursive `extractHtml` calls performed by
the viewer traversal on a payload (the call on the payload itself counts 1;
an early return at a hit part stops the recursion there). -/
def viewerDepth : MimePart → Nat
| .node mt d ps =>
  let m := mt.getD ""
  if jsStartsWith m "text/html" && truthyOpt d && truthyOpt (decodeBase64 (d.getD "")) then 1
  else if jsStartsWith m "text/plain" && truthyOpt d && truthyOpt (decodeBase64 (d.getD "")) then 1
  else 1 + viewerDepthList ps
termination_by structural p => p

/-- Maximum call depth over a list of sibling parts (siblings share the same
stack frame of the enclosing loop). -/
def viewerDepthList : List MimePart → Nat
| [] => 0
| p :: ps => max (viewerDepth p) (viewerDepthList ps)
termination_by structural ps => ps

end

/-- Fuel-bounded version of the viewer's loop over child parts, parametrised
by the evaluator used for the recursive call on each child (the loop itself
runs in the stack frame of the enclosing call, so it consumes no fuel). -/
def viewerScanFuel (eval : MimePart → Option ExtractResult) :
    List MimePart → Option String → Option String → Option ExtractResult
| [], h, t => some { html := h, text := t }
| p :: ps, h, t =>
  match eval p with
  | none => none
  | some r =>
    if truthyOpt r.html then viewerScanFuel eval ps r.html t
    else if truthyOpt r.text && !truthyOpt t then viewerScanFuel eval ps h r.text
    else viewerScanFuel eval ps h t

/-- The viewer traversal evaluated with an explicit stack bound: each nested
recursive call consumes one unit of fuel, and the evaluation reports `none`
when the bound is exhausted. -/
def viewerExtractFuel : Nat → MimePart → Option ExtractResult
| 0, _ => none
| n + 1, .node mt d ps =>
  let m := mt.getD ""
  if jsStartsWith m "text/html" && truthyOpt d && truthyOpt (decodeBase64 (d.getD "")) then
    some { html := decodeBase64 (d.getD ""), text := none }
  else if jsStartsWith m "text/plain" && truthyOpt d && truthyOpt (decodeBase64 (d.getD "")) then
    some { html := none, text := decodeBase64 (d.getD "") }
  else
    viewerScanFuel (viewerExtractFuel n) ps none none

/-- A payload nested to depth `n`: a chain of parts with no MIME type and no
data, each containing the next. -/
def nestedPayload : Nat → MimePart
| 0 => .node none none []
| n + 1 => .node none none [nestedPayload n]

/-! ## The DOM sanitiser of the email-card component (`sanitizeHtml`,
`LoginPage.tsx` lines 738-831)

The sanitiser parses the HTML into a DOM forest, removes `script` and `style`
elements, removes empty elements, strips event-handler / `class` / `id`
attributes from every remaining element, rewrites image and inline-style
attributes, then *serialises the forest back to a string* (`tempDiv.innerHTML`)
and runs three regular-expression replacements on that string to delete
leading, trailing and repeated empty `div`s.  The DOM is modelled as a forest
of element/text nodes and HTML parsing is the browser's; the serialisation
and the three final regular expressions are modelled exactly, because the
regular expressions operate on raw text: HTML serialisation leaves `<` and
`>` unescaped inside attribute values, so these replacements can match across
an attribute-value boundary and splice quoted markup into the output.  The
chain of regular-expression replacements applied to an inline style *value*
only produces some new value for the `style` attribute; it is abstracted as a
parameter `cleanStyle`. -/

/-- A DOM attribute: a name/value pair. -/
structure Attr where
  name : String
  value : String
deriving Repr, DecidableEq

/-- A DOM node: an element with a tag, attributes and children, or a text
node. -/
inductive DomNode : Type where
| elem (tag : String) (attrs : List Attr) (children : List DomNode) : DomNode
| text (s : String) : DomNode

/-- ASCII lower-casing, used for the case-insensitive tag matching that CSS
selectors such as `querySelectorAll("script")` perform on HTML elements. -/
def asciiLower (s : String) : String :=
  String.mk (s.data.map fun c =>
    if 65 ≤ c.toNat ∧ c.toNat ≤ 90 then Char.ofNat (c.toNat + 32) else c)

/-- ASCII upper-casing, modelling the `Element.tagName` getter (which reports
the tag upper-cased for HTML elements). -/
def asciiUpper (s : String) : String :=
  String.mk (s.data.map fun c =>
    if 97 ≤ c.toNat ∧ c.toNat ≤ 122 then Char.ofNat (c.toNat - 32) else c)

/-- Whether a node is an element whose tag matches `t` (given lower-case)
case-insensitively. -/
def isTagCI (t : String) : DomNode → Bool
| .elem tag _ _ => asciiLower tag == t
| .text _ => false

mutual

/-- `querySelectorAll(t)` + `.remove()` on every match: delete every element
matching tag `t` (with its whole subtree) at any depth of the forest. -/
def removeTagNode (t : String) : DomNode → DomNode
| .elem tag a cs => .elem tag a (removeTagList t cs)
| .text s => .text s
termination_by structural n => n

/-- `removeTagNode` over a forest, dropping the matching roots. -/
def removeTagList (t : String) : List DomNode → List DomNode
| [] => []
| n :: ns =>
  if isTagCI t n then removeTagList t ns
  else removeTagNode t n :: removeTagList t ns
termination_by structural ns => ns

end

mutual

/-- `Node.textContent`: concatenation of all text-node descendants. -/
def textContent : DomNode → String
| .elem _ _ cs => textContentList cs
| .text s => s
termination_by structural n => n

/-- `textContent` over a forest. -/
def textContentList : List DomNode → String
| [] => ""
| n :: ns => textContent n ++ textContentList ns
termination_by structural ns => ns

end

mutual

/-- `child.querySelector(t)` as a Boolean: whether some strict descendant
element of the node matches tag `t` case-insensitively. -/
def hasDescTag (t : String) : DomNode → Bool
| .elem _ _ cs => hasDescTagList t cs
| .text _ => false
termination_by structural n => n

/-- Whether some element in the forest (or its descendants) matches `t`. -/
def hasDescTagList (t : String) : List DomNode → Bool
| [] => false
| n :: ns => (isTagCI t n || hasDescTag t n || hasDescTagList t ns)
termination_by structural ns => ns

end

/-- JavaScript `String.prototype.trim`: strip leading and trailing
whitespace. -/
def jsTrim (s : String) : String :=
  let ws := fun c : Char => c == ' ' || c == '\t' || c == '\n' || c == '\r' || c == '\x0c' || c == '\x0b'
  String.mk ((s.data.dropWhile ws).reverse.dropWhile ws).reverse

/-- Number of *element* children of a children list (`Element.children`
counts only element nodes). -/
def elemChildCount (cs : List DomNode) : Nat :=
  (cs.filter fun n => match n with | .elem _ _ _ => true | .text _ => false).length

/-- The emptiness test of `removeEmptyElements`: no text content after
trimming, no descendant image or link, no element children, and the tag is
neither `BR` nor `HR`. -/
def isRemovableEmpty : DomNode → Bool
| .elem tag _ cs =>
  let txt := jsTrim (textContent (.elem tag [] cs))
  let hasImages := hasDescTagList "img" cs
  let hasLinks := hasDescTagList "a" cs
  let hasContent := decide (0 < txt.length) || hasImages || hasLinks
  !hasContent && elemChildCount cs == 0 && !(asciiUpper tag == "BR") && !(asciiUpper tag == "HR")
| .text _ => false

mutual

/-- `removeEmptyElements` applied below a node: each element child is first
cleaned recursively, then removed when the emptiness test holds for it. -/
def removeEmptyNode : DomNode → DomNode
| .elem tag a cs => .elem tag a (removeEmptyList cs)
| .text s => .text s
termination_by structural n => n

/-- `removeEmptyElements` over a children list: text nodes are kept as they
are (and are never removable); element nodes are cleaned recursively and then
dropped when the emptiness test holds for the cleaned node. -/
def removeEmptyList : List DomNode → List DomNode
| [] => []
| n :: ns =>
  let child := removeEmptyNode n
  if isRemovableEmpty child then removeEmptyList ns
  else child :: removeEmptyList ns
termination_by structural ns => ns

end

/-- Whether an attribute is deleted by the handler/`class`/`id` sweep:
names starting with `on`, the name `javascript`, and the names `class` and
`id`. -/
def isDroppedAttr (a : Attr) : Bool :=
  jsStartsWith a.name "on" || a.name == "javascript" || a.name == "class" || a.name == "id"

/-- `Element.setAttribute`: overwrite the value in place when the name is
present, append the attribute otherwise. -/
def setAttr (nm v : String) (attrs : List Attr) : List Attr :=
  if attrs.any (fun a => a.name == nm) then
    attrs.map fun a => if a.name == nm then ⟨nm, v⟩ else a
  else attrs ++ [⟨nm, v⟩]

/-- `Element.getAttribute(nm) || ""`. -/
def getAttrD (nm : String) (attrs : List Attr) : String :=
  match attrs.find? (fun a => a.name == nm) with
  | some a => a.value
  | none => ""

/-- The per-element attribute rewrite of `sanitizeHtml`: drop event handlers
and `class`/`id`; on images force lazy loading and prepend sizing styles; then
pipe any inline style value through the regular-expression cleaning chain
`cleanStyle`, keeping the attribute only when the result is non-empty. -/
def cleanAttrs (cleanStyle : String → String) (tag : String) (attrs : List Attr) : List Attr :=
  let attrs := attrs.filter fun a => !isDroppedAttr a
  let attrs :=
    if asciiUpper tag == "IMG" then
      let existingStyle := getAttrD "style" attrs
      setAttr "style" ("max-width: 100%; height: auto; display: block; " ++ existingStyle)
        (setAttr "loading" "lazy" attrs)
    else attrs
  if attrs.any (fun a => a.name == "style") then
    let cleaned := cleanStyle (getAttrD "style" attrs)
    if 0 < cleaned.length then setAttr "style" cleaned attrs
    else attrs.filter fun a => !(a.name == "style")
  else attrs

mutual

/-- The `querySelectorAll("*")` sweep: apply the attribute rewrite to every
element of the tree. -/
def cleanAttrsNode (cleanStyle : String → String) : DomNode → DomNode
| .elem tag a cs => .elem tag (cleanAttrs cleanStyle tag a) (cleanAttrsList cleanStyle cs)
| .text s => .text s
termination_by structural n => n

/-- `cleanAttrsNode` over a forest. -/
def cleanAttrsList (cleanStyle : String → String) : List DomNode → List DomNode
| [] => []
| n :: ns => cleanAttrsNode cleanStyle n :: cleanAttrsList cleanStyle ns
termination_by structural ns => ns

end

/-- ASCII lower-casing of one character, used by the case-insensitive (`i`)
flag of the cleanup regular expressions. -/
def asciiLowerChar (c : Char) : Char :=
  if 65 ≤ c.toNat ∧ c.toNat ≤ 90 then Char.ofNat (c.toNat + 32) else c

/-- Escaping applied by HTML fragment serialisation to an attribute value:
`&`, `"` and no-break space are escaped; `<` and `>` are *not*. -/
def escAttrValue (s : String) : String :=
  String.mk (s.data.foldr (fun c acc =>
    if c == '&' then '&' :: 'a' :: 'm' :: 'p' :: ';' :: acc
    else if c == '"' then '&' :: 'q' :: 'u' :: 'o' :: 't' :: ';' :: acc
    else if c.toNat == 0xA0 then '&' :: 'n' :: 'b' :: 's' :: 'p' :: ';' :: acc
    else c :: acc) [])

/-- Escaping applied by HTML fragment serialisation to a text node: `&`,
no-break space, `<` and `>` are escaped. -/
def escText (s : String) : String :=
  String.mk (s.data.foldr (fun c acc =>
    if c == '&' then '&' :: 'a' :: 'm' :: 'p' :: ';' :: acc
    else if c.toNat == 0xA0 then '&' :: 'n' :: 'b' :: 's' :: 'p' :: ';' :: acc
    else if c == '<' then '&' :: 'l' :: 't' :: ';' :: acc
    else if c == '>' then '&' :: 'g' :: 't' :: ';' :: acc
    else c :: acc) [])

/-- The HTML void elements, serialised without end tag. -/
def voidTags : List String :=
  ["area", "base", "br", "col", "embed", "hr", "img", "input", "link", "meta",
    "source", "track", "wbr"]

/-- Serialise an attribute list as ` name="value"…`. -/
def serializeAttrs (attrs : List Attr) : String :=
  attrs.foldl (fun acc a => acc ++ " " ++ a.name ++ "=\"" ++ escAttrValue a.value ++ "\"") ""

mutual

/-- `Element.innerHTML` read on one node: the HTML fragment serialisation
of the node (script/style raw-text special cases are irrelevant here, those
elements having been removed before serialisation). -/
def serializeNode : DomNode → String
| .elem tag attrs cs =>
  let t := asciiLower tag
  if voidTags.contains t then "<" ++ t ++ serializeAttrs attrs ++ ">"
  else "<" ++ t ++ serializeAttrs attrs ++ ">" ++ serializeList cs ++ "</" ++ t ++ ">"
| .text s => escText s
termination_by structural n => n

/-- `serializeNode` over a forest (the serialisation of `tempDiv`'s
children, i.e. `tempDiv.innerHTML`). -/
def serializeList : List DomNode → String
| [] => ""
| n :: ns => serializeNode n ++ serializeList ns
termination_by structural ns => ns

end

/-- The character class `\s` of the cleanup regular expressions (JavaScript
whitespace: ASCII whitespace, no-break space and the BOM; the rarer Unicode
space characters are omitted from the model). -/
def isRegexWs (c : Char) : Bool :=
  c == ' ' || c == '\t' || c == '\n' || c == '\r' || c == '\x0c' || c == '\x0b' ||
    c.toNat == 0xA0 || c.toNat == 0xFEFF

/-- Match a literal pattern case-insensitively (the `i` flag), returning the
rest of the input on success. -/
def matchLitCI : List Char → List Char → Option (List Char)
| [], cs => some cs
| _ :: _, [] => none
| p :: ps, c :: cs =>
  if asciiLowerChar c == asciiLowerChar p then matchLitCI ps cs else none

/-- One repetition of the group `\s*<div[^>]*>\s*<\/div>\s*` of the leading
and trailing cleanup expressions.  Each sub-pattern is deterministic —
`[^>]*` cannot consume `>` and `\s*` cannot consume `<` — so greedy matching
without backtracking is exact. -/
def matchEmptyDivRep (cs : List Char) : Option (List Char) :=
  let cs1 := cs.dropWhile isRegexWs
  match matchLitCI "<div".data cs1 with
  | none => none
  | some cs2 =>
    match cs2.dropWhile (fun c => !(c == '>')) with
    | [] => none
    | _ :: cs3 =>
      let cs4 := cs3.dropWhile isRegexWs
      match matchLitCI "</div>".data cs4 with
      | none => none
      | some cs5 => some (cs5.dropWhile isRegexWs)

/-- Greedy `( … )+` over `matchEmptyDivRep`: the rest after as many
repetitions as match, `none` when not even one does.  Each repetition
consumes at least eleven characters, so the fuel `length + 1` is never
exhausted. -/
def matchRepPlus : Nat → List Char → Option (List Char)
| 0, _ => none
| fuel + 1, cs =>
  match matchEmptyDivRep cs with
  | none => none
  | some rest =>
    match matchRepPlus fuel rest with
    | none => some rest
    | some rest2 => some rest2

/-- The `cleaned.replace(/^(\s*<div[^>]*>\s*<\/div>\s*)+/i, "")` step:
delete the anchored match when there is one. -/
def stripLeadingEmptyDivs (s : String) : String :=
  match matchRepPlus (s.data.length + 1) s.data with
  | none => s
  | some rest => String.mk rest

/-- Whether `(\s*<div[^>]*>\s*<\/div>\s*)+` matches the whole input (used
against every suffix for the `$`-anchored replacement). -/
def matchRepPlusToEnd (cs : List Char) : Bool :=
  match matchRepPlus (cs.length + 1) cs with
  | some [] => true
  | _ => false

/-- Leftmost-match search for the `$`-anchored expression: the kept prefix
when some suffix matches through to the end, `none` otherwise. -/
def stripTrailingGo : List Char → Option (List Char)
| [] => none
| c :: cs =>
  if matchRepPlusToEnd (c :: cs) then some []
  else
    match stripTrailingGo cs with
    | none => none
    | some kept => some (c :: kept)

/-- The `cleaned.replace(/(\s*<div[^>]*>\s*<\/div>\s*)+$/i, "")` step:
delete the leftmost suffix matching through to the end, when there is one. -/
def stripTrailingEmptyDivs (s : String) : String :=
  match stripTrailingGo s.data with
  | none => s
  | some kept => String.mk kept

/-- One repetition of the group `<div[^>]*>\s*<\/div>\s*` of the global
cleanup expression (no leading `\s*`). -/
def matchEmptyDivRepTight (cs : List Char) : Option (List Char) :=
  match matchLitCI "<div".data cs with
  | none => none
  | some cs2 =>
    match cs2.dropWhile (fun c => !(c == '>')) with
    | [] => none
    | _ :: cs3 =>
      let cs4 := cs3.dropWhile isRegexWs
      match matchLitCI "</div>".data cs4 with
      | none => none
      | some cs5 => some (cs5.dropWhile isRegexWs)

/-- Greedy repetition count for the global expression: how many repetitions
match from here, and the rest after them. -/
def matchRepCount : Nat → List Char → Nat × List Char
| 0, cs => (0, cs)
| fuel + 1, cs =>
  match matchEmptyDivRepTight cs with
  | none => (0, cs)
  | some rest =>
    let r := matchRepCount fuel rest
    (r.1 + 1, r.2)

/-- Left-to-right scan of the `g`-flag replacement: at each position, when
two or more repetitions match, delete them and resume after the match;
otherwise keep the character and advance. -/
def removeRunsGo : Nat → List Char → List Char
| 0, cs => cs
| _ + 1, [] => []
| fuel + 1, c :: rest =>
  let m := matchRepCount ((c :: rest).length + 1) (c :: rest)
  if 2 ≤ m.1 then removeRunsGo fuel m.2
  else c :: removeRunsGo fuel rest

/-- The `cleaned.replace(/(<div[^>]*>\s*<\/div>\s*){2,}/gi, "")` step. -/
def removeEmptyDivRuns (s : String) : String :=
  String.mk (removeRunsGo (s.data.length + 1) s.data)

/-- The element-level sweeps of `sanitizeHtml`, before serialisation: remove
`script` elements, remove `style` elements, remove empty elements, and
rewrite the attributes of every remaining element (`LoginPage.tsx`
743-819). -/
def sanitizeDomSweeps (cleanStyle : String → String) (input : List DomNode) : List DomNode :=
  let ns := removeTagList "script" input
  let ns := removeTagList "style" ns
  let ns := removeEmptyList ns
  cleanAttrsList cleanStyle ns

/-- `sanitizeHtml` from the email-card component of `LoginPage.tsx`
(lines 738-831), on the parsed DOM forest of its input: the element-level
sweeps, then `tempDiv.innerHTML` serialisation and the three
regular-expression replacements deleting leading, trailing and repeated
empty `div`s from the serialised string (lines 821-830).  `cleanStyle`
abstracts the regular-expression chain applied to inline style values. -/
def sanitizeHtml (cleanStyle : String → String) (input : List DomNode) : String :=
  let cleaned := serializeList (sanitizeDomSweeps cleanStyle input)
  let cleaned := stripLeadingEmptyDivs cleaned
  let cleaned := stripTrailingEmptyDivs cleaned
  removeEmptyDivRuns cleaned

/-! ## The background pipeline

The Flask backend implementing the Job Manager, Sync Job, Batch Classifier
and Result Writer is not part of the given source tree (only its frontend
callers are), so the definitions in this section are modelled from the
specification (§4, §5, §8). -/

/-- Modelled from the spec (§4.1): lifecycle states of a sync job,
`QUEUED -> RUNNING -> {COMPLETED, FAILED}`. -/
inductive JobState : Type where
| QUEUED
| RUNNING
| COMPLETED
| FAILED
deriving Repr, DecidableEq

/-- Modelled from the spec (§4.1, §6): the per-user lock table of the Job
Manager, a process-wide mapping from user id to locked/unlocked, empty on
start. -/
structure ManagerState where
  locks : List Nat
deriving Repr, DecidableEq

/-- Outcome of a `startSync` call: accepted, or rejected with
`ALREADY_RUNNING`. -/
inductive StartResult : Type where
| accepted
| rejected
deriving Repr, DecidableEq

/-- Modelled from the spec (§4.1, §9): `startSync(userId)` acquires the
user's lock with a non-blocking try-acquire — it atomically checks the lock
table and either takes the lock (acceptance) or rejects with
`ALREADY_RUNNING`.  The spec requires the check-and-set to be one atomic
step; concurrent callers therefore observe it in some serial order. -/
def startSync (u : Nat) (s : ManagerState) : StartResult × ManagerState :=
  if s.locks.contains u then (.rejected, s)
  else (.accepted, ⟨u :: s.locks⟩)

/-- Modelled from the spec (§4.1): `getStatus` is a pure read of the latest
snapshot table — here only its effect on the manager state matters, so the
snapshot table is abstracted to the user set that has one. -/
def getStatus (u : Nat) (snapshots : List Nat) : Option Nat :=
  snapshots.find? (fun v => v == u)

/-- The caller-facing API operations of the Job Manager. -/
inductive ApiCall : Type where
| start (u : Nat)
| status (u : Nat)
deriving Repr, DecidableEq

/-- One caller-facing API step against the manager state: `startSync`
mutates the lock table, `getStatus` reads and leaves the state unchanged. -/
def applyApi (c : ApiCall) (s : ManagerState) : ManagerState :=
  match c with
  | .start u => (startSync u s).2
  | .status _ => s

/-- Modelled from the spec (§4.3): the fixed batch size of the Batch
Classifier, 25 messages per batch. -/
def batchSize : Nat := 25

/-- Helper for `partitionBatches`: the same recursion with an explicit
structural bound on the number of rounds (any bound at least the input
length gives the full partition). -/
def partitionAux : Nat → List Nat → List (List Nat)
| _, [] => []
| 0, _ :: _ => []
| fuel + 1, x :: xs => ((x :: xs).take batchSize) :: partitionAux fuel ((x :: xs).drop batchSize)

/-- Modelled from the spec (§4.3): partition the input into contiguous
fixed-size batches of at most `batchSize` messages — repeatedly split off
the first `batchSize` messages until the input is exhausted. -/
def partitionBatches (l : List Nat) : List (List Nat) :=
  partitionAux l.length l

/-- Modelled from the spec (§3, §4.3): a classification record returned by
the adapter for one message: the message id it claims, and whether its
category and category-specific fields pass schema validation. -/
structure ClsRecord where
  emailId : Nat
  valid : Bool
deriving Repr, DecidableEq

/-- Modelled from the spec (§4.3): per-message outcome of the Batch
Classifier. -/
inductive Outcome : Type where
| classified (emailId : Nat)
| failed (emailId : Nat)
deriving Repr, DecidableEq

/-- The message id an outcome is about. -/
def Outcome.emailId : Outcome → Nat
| .classified e => e
| .failed e => e

/-- Whether the outcome is `Classified`. -/
def Outcome.isClassified : Outcome → Bool
| .classified _ => true
| .failed _ => false

/-- Modelled from the spec (§4.3): process one batch — invoke the adapter
once for the whole batch; on a whole-batch failure every message of the
batch fails; otherwise each message is validated independently against the
record carrying its id, and a record failing validation produces `Failed`
for just that message. -/
def processBatch (adapter : List Nat → Except String (List ClsRecord))
    (batch : List Nat) : List Outcome :=
  match adapter batch with
  | .error _ => batch.map fun e => .failed e
  | .ok recs =>
      batch.map fun e =>
        match recs.find? (fun r => r.emailId == e) with
        | some r => if r.valid then .classified e else .failed e
        | none => .failed e

/-- Modelled from the spec (§4.2, §6): the progress snapshot of a sync job —
counts of all known messages, messages newly processed in this run, messages
still unprocessed, newly fetched messages, and failed messages. -/
structure SyncSnapshot where
  total : Nat
  processed : Nat
  unprocessed : Nat
  new : Nat
  failed : Nat
deriving Repr, DecidableEq

/-- Modelled from the spec (§4.1, §4.2): result of one full sync run — the
terminal job state, the final snapshot, and the last error if any. -/
structure JobResult where
  state : JobState
  snap : SyncSnapshot
  lastError : Option String
deriving Repr, DecidableEq

/-- Modelled from the spec (§4.2): one full sync cycle.  `known` is the
stored mailbox state (message id, processed flag); `fetchRes` is the mailbox
collaborator's answer (new messages only, after the set difference of step
2); `adapter` is the Classification Client Adapter.  A fetch-stage error
aborts the whole job as `FAILED`; otherwise the unprocessed messages (newly
fetched and left over) are batched, classified, and the job terminates
`COMPLETED` with aggregated counts. -/
def runSyncJob (known : List (Nat × Bool)) (fetchRes : Except String (List Nat))
    (adapter : List Nat → Except String (List ClsRecord)) : JobResult :=
  match fetchRes with
  | .error e => ⟨.FAILED, ⟨0, 0, 0, 0, 0⟩, some e⟩
  | .ok fetched =>
      let newMsgs := fetched.filter fun m => !(known.any fun k => k.1 == m)
      let leftover := (known.filter fun k => !k.2).map (·.1)
      let unclassified := leftover ++ newMsgs
      let outcomes := (partitionBatches unclassified).map (processBatch adapter)
      let outcomes := outcomes.join
      let nClassified := (outcomes.filter (·.isClassified)).length
      let nFailed := (outcomes.filter fun o => !o.isClassified).length
      ⟨.COMPLETED,
        ⟨known.length + newMsgs.length, nClassified,
          unclassified.length - nClassified, newMsgs.length, nFailed⟩,
        none⟩

/-! ## The Result Writer and storage (for the processed-flag invariant)

Modelled from the spec (§4.2 step 2, §4.4): storage holds Email rows with a
processed flag, and ClassificationResult rows keyed by email id.  New emails
are created with `processed = false`; the Result Writer upserts the result
and sets the email's processed flag in the same logical transaction. -/

/-- An Email row: provider message id and processed flag (the attributes the
invariant is about). -/
structure EmailRow where
  id : Nat
  processed : Bool
deriving Repr, DecidableEq

/-- The storage state: Email rows and ClassificationResult rows (keyed by
email id, one per email). -/
structure Store where
  emails : List EmailRow
  results : List (Nat × ClsRecord)
deriving Repr, DecidableEq

/-- The empty storage. -/
def Store.empty : Store := ⟨[], []⟩

/-- Modelled from the spec: the storage writes a sync run performs — storing
a newly fetched email (processed = false), or the Result Writer persisting a
validated result. -/
inductive StoreOp : Type where
| fetchNew (id : Nat)
| write (id : Nat) (r : ClsRecord)
deriving Repr, DecidableEq

/-- Upsert a result row by email id. -/
def upsertResult (id : Nat) (r : ClsRecord) (rs : List (Nat × ClsRecord)) :
    List (Nat × ClsRecord) :=
  if rs.any (fun p => p.1 == id) then
    rs.map fun p => if p.1 == id then (id, r) else p
  else rs ++ [(id, r)]

/-- Modelled from the spec (§4.2 step 2, §4.4): apply one storage write.
`fetchNew` stores a new Email row with `processed = false` (no-op when the
id exists — emails are created on first fetch only); `write` upserts the
ClassificationResult and marks the Email's processed flag true in the same
logical transaction (no-op when the email row does not exist, since the
pipeline only classifies stored emails). -/
def applyStoreOp (s : Store) : StoreOp → Store
| .fetchNew id =>
    if s.emails.any (fun e => e.id == id) then s
    else ⟨s.emails ++ [⟨id, false⟩], s.results⟩
| .write id r =>
    if s.emails.any (fun e => e.id == id) then
      ⟨s.emails.map (fun e => if e.id == id then ⟨id, true⟩ else e),
        upsertResult id r s.results⟩
    else s

/-- Run a sequence of storage writes from the empty store. -/
def runStore (ops : List StoreOp) : Store :=
  ops.foldl applyStoreOp Store.empty

/-- The invariant of spec §3: an Email row's processed flag is set iff a
ClassificationResult for it exists. -/
def ProcessedIffResult (s : Store) : Prop :=
  ∀ e ∈ s.emails, e.processed = true ↔ ∃ r, (e.id, r) ∈ s.results

/-! ## The sync-status snapshot consumed by the frontend

`TasksPage.tsx` declares the snapshot type the dashboard receives and
renders (`SyncStats`, lines 114-121).  Its fields are the authoritative
record of which counts the poll exposes. -/

/-- The field names of the `SyncStats` type in `TasksPage.tsx`
(lines 114-121), in declaration order. -/
def syncStatsFields : List String :=
  ["total_emails", "processed_emails", "unprocessed_emails", "new_count",
    "synced_count", "newly_processed"]

/-- The `sync_stats` fields the dashboard page actually renders
(`TasksPage.tsx` lines 207-208 and 259-272). -/
def dashboardRenderedFields : List String :=
  ["total_emails", "processed_emails", "new_count", "unprocessed_emails",
    "newly_processed"]

/-! ## Lemmas about the batch partition -/

/-- With enough fuel, the partition is a partition: its concatenation is the
input. -/
theorem partitionAux_join : ∀ (fuel : Nat) (l : List Nat), l.length ≤ fuel →
    (partitionAux fuel l).join = l := by
  intro fuel
  induction fuel with
  | zero =>
    intro l h
    cases l with
    | nil => simp [partitionAux]
    | cons x xs => simp at h
  | succ fuel ih =>
    intro l h
    cases l with
    | nil => simp [partitionAux]
    | cons x xs =>
      have hd : ((x :: xs).drop batchSize).length ≤ fuel := by
        simp [batchSize] at h ⊢
        omega
      simp [partitionAux, ih _ hd]

/-- With enough fuel, every batch is nonempty and no larger than
`batchSize`. -/
theorem partitionAux_batch_le : ∀ (fuel : Nat) (l : List Nat), l.length ≤ fuel →
    ∀ b ∈ partitionAux fuel l, 0 < b.length ∧ b.length ≤ batchSize := by
  intro fuel
  induction fuel with
  | zero =>
    intro l h b hb
    cases l with
    | nil => simp [partitionAux] at hb
    | cons x xs => simp at h
  | succ fuel ih =>
    intro l h b hb
    cases l with
    | nil => simp [partitionAux] at hb
    | cons x xs =>
      have hd : ((x :: xs).drop batchSize).length ≤ fuel := by
        simp [batchSize] at h ⊢
        omega
      simp only [partitionAux, List.mem_cons] at hb
      rcases hb with hb | hb
      · subst hb
        constructor
        · simp [batchSize]
        · simp [batchSize]
      · exact ih _ hd b hb

/-- With enough fuel, every batch except possibly the last has exactly
`batchSize` messages. -/
theorem partitionAux_dropLast : ∀ (fuel : Nat) (l : List Nat), l.length ≤ fuel →
    ∀ b ∈ (partitionAux fuel l).dropLast, b.length = batchSize := by
  intro fuel
  induction fuel with
  | zero =>
    intro l h b hb
    cases l with
    | nil => simp [partitionAux] at hb
    | cons x xs => simp at h
  | succ fuel ih =>
    intro l h b hb
    cases l with
    | nil => simp [partitionAux] at hb
    | cons x xs =>
      have hd : ((x :: xs).drop batchSize).length ≤ fuel := by
        simp [batchSize] at h ⊢
        omega
      simp only [partitionAux] at hb
      cases hrest : partitionAux fuel ((x :: xs).drop batchSize) with
      | nil => simp [hrest] at hb
      | cons r rs =>
        rw [hrest, List.dropLast_cons_of_ne_nil (by simp)] at hb
        rcases List.mem_cons.mp hb with hb | hb
        · subst hb
          have hne : (x :: xs).drop batchSize ≠ [] := by
            intro hnil
            rw [hnil] at hrest
            simp [partitionAux] at hrest
          have hlen : batchSize < (x :: xs).length := by
            by_contra hle
            push_neg at hle
            exact hne (List.drop_eq_nil_of_le hle)
          simp only [List.length_take, batchSize] at hlen ⊢
          omega
        · rw [← hrest] at hb
          exact ih _ hd b hb

/-- C5: the Batch Classifier partitions its input into contiguous batches of
at most 25 messages, every batch except possibly the last holding exactly
25; an input of 30 messages yields exactly two batches of sizes 25 and 5.
(The Batch Classifier is modelled from the spec, §4.3.) -/
theorem batchClassifier_partition_sizes :
    (∀ l : List Nat,
      (partitionBatches l).join = l ∧
      (∀ b ∈ partitionBatches l, 0 < b.length ∧ b.length ≤ 25) ∧
      (∀ b ∈ (partitionBatches l).dropLast, b.length = 25)) ∧
    (partitionBatches (List.range 30)).map List.length = [25, 5] := by
  constructor
  · intro l
    refine ⟨partitionAux_join l.length l le_rfl, ?_, ?_⟩
    · exact partitionAux_batch_le l.length l le_rfl
    · exact partitionAux_dropLast l.length l le_rfl
  · rfl

/-- Witness for C5 at concrete inputs: the 30-message partition, its
concatenation, and the exact size of its first (non-last) batch. -/
theorem batchClassifier_partition_sizes_witness :
    (partitionBatches (List.range 30)).map List.length = [25, 5] ∧
    (partitionBatches (List.range 30)).join = List.range 30 ∧
    (List.range 25).length = 25 := by
  refine ⟨batchClassifier_partition_sizes.2,
    (batchClassifier_partition_sizes.1 (List.range 30)).1, ?_⟩
  have hmem : List.range 25 ∈ (partitionBatches (List.range 30)).dropLast := by
    decide
  exact ((batchClassifier_partition_sizes.1 (List.range 30)).2.2) (List.range 25) hmem

/-! ## Lemmas about the base64url decoder -/

/-- The two `.replace` passes of `decodeBase64` compose to the single
character map `b64UrlChar`. -/
theorem b64_replace_chain (c : Char) :
    (fun c => if c == '_' then '/' else c) ((fun c => if c == '-' then '+' else c) c) =
      b64UrlChar c := by
  by_cases h1 : c = '-'
  · subst h1
    rfl
  · by_cases h2 : c = '_'
    · subst h2
      rfl
    · simp [b64UrlChar, h1, h2]

/-- The string `decodeBase64` hands to `atob` is exactly the mapped-then-
padded string. -/
theorem decodeBase64_eq_staged (s : String) :
    decodeBase64 s =
      (match atobBytes (b64Padded s) with
        | some bs => some (utf8LossyDecode bs)
        | none => none) := by
  have hmap : String.mk ((s.data.map fun c => if c == '-' then '+' else c).map
      fun c => if c == '_' then '/' else c) = b64UrlToStd s := by
    rw [List.map_map, b64UrlToStd]
    congr 1
    apply List.map_congr_left
    intro c _
    exact b64_replace_chain c
  simp only [decodeBase64, b64Padded, hmap]

/-- C10: the base64url decoder is a total function into `Option`: it maps
`-` to `+` and `_` to `/`, pads with `=` to a multiple of four, and returns
the UTF-8 decoding of the `atob` bytes on success and `null` on any decoding
failure. -/
theorem decodeBase64_total_and_padded :
    ∀ s : String,
      (b64Padded s).length % 4 = 0 ∧
      (b64UrlToStd s).data = s.data.map b64UrlChar ∧
      (b64UrlChar '-' = '+' ∧ b64UrlChar '_' = '/' ∧
        ∀ c : Char, c ≠ '-' → c ≠ '_' → b64UrlChar c = c) ∧
      decodeBase64 s =
        (match atobBytes (b64Padded s) with
          | some bs => some (utf8LossyDecode bs)
          | none => none) := by
  intro s
  refine ⟨?_, rfl, ⟨rfl, rfl, ?_⟩, decodeBase64_eq_staged s⟩
  · rw [b64Padded]
    split
    next h =>
      simp only [bne_iff_ne, ne_eq] at h
      simp only [String.length_append]
      have hrep : (String.mk (List.replicate (4 - (b64UrlToStd s).length % 4) '=')).length =
          4 - (b64UrlToStd s).length % 4 := by
        show (List.replicate (4 - (b64UrlToStd s).length % 4) '=').length = _
        exact List.length_replicate _ _
      rw [hrep]
      omega
    next h =>
      simp only [bne_iff_ne, ne_eq, not_not] at h
      omega
  · intro c h1 h2
    simp [b64UrlChar, h1, h2]

/-- Witness for C10 at a concrete input: the decoder run on the base64url
string `"PGI-aGk_PC9iPg"` (which decodes to an HTML fragment), together with
the character-map facts applied at `'x'`. -/
theorem decodeBase64_total_and_padded_witness :
    (b64Padded "PGI-aGk_PC9iPg").length % 4 = 0 ∧
    b64UrlChar 'x' = 'x' ∧
    decodeBase64 "PGI-aGk_PC9iPg" =
      (match atobBytes (b64Padded "PGI-aGk_PC9iPg") with
        | some bs => some (utf8LossyDecode bs)
        | none => none) := by
  obtain ⟨hpad, _, ⟨_, _, hmap⟩, hdec⟩ := decodeBase64_total_and_padded "PGI-aGk_PC9iPg"
  exact ⟨hpad, hmap 'x' (by decide) (by decide), hdec⟩

/-! ## The sync-status snapshot fields (C4) -/

/-- C4 counterexample: the snapshot type the frontend receives and renders
(`SyncStats` in `TasksPage.tsx`) carries no `failed` field at all — nor
fields named `total`, `processed`, `unprocessed` or `new`; the counts it does
carry use the `_emails`/`_count` names. -/
theorem syncStats_has_no_failed_field :
    "failed" ∉ syncStatsFields ∧
    "total" ∉ syncStatsFields ∧
    "processed" ∉ syncStatsFields ∧
    "unprocessed" ∉ syncStatsFields ∧
    "new" ∉ syncStatsFields ∧
    "failed" ∉ dashboardRenderedFields := by
  refine ⟨?_, ?_, ?_, ?_, ?_, ?_⟩ <;> decide

/-- C4 (amended): the snapshot the frontend consumes exposes the total,
processed, unprocessed and newly-fetched counts under the names
`total_emails`, `processed_emails`, `unprocessed_emails` and `new_count`
(plus `synced_count` and `newly_processed`); every field the dashboard
renders is declared in the snapshot type, and no `failed` count is exposed. -/
theorem syncStats_fields_exposed :
    syncStatsFields = ["total_emails", "processed_emails", "unprocessed_emails",
      "new_count", "synced_count", "newly_processed"] ∧
    (∀ f ∈ dashboardRenderedFields, f ∈ syncStatsFields) ∧
    "failed" ∉ syncStatsFields := by
  refine ⟨rfl, ?_, by decide⟩
  intro f hf
  fin_cases hf <;> decide

/-- Witness for C4's amended theorem at a concrete field: the rendered field
`new_count` is declared in the snapshot type. -/
theorem syncStats_fields_exposed_witness :
    "new_count" ∈ syncStatsFields :=
  syncStats_fields_exposed.2.1 "new_count" (by decide)

/-! ## Mutual exclusion of the Job Manager (C1) -/

/-- C1: `startSync` is modelled from the spec as one atomic check-and-set of
the per-user lock table, so two concurrent calls for the same user serialise
into the two orders of that step — and both orders (which coincide, the calls
being identical) yield exactly one acceptance and one rejection, never two
acceptances.  Among the caller-facing API operations, `startSync` is the only
mutator of the manager state: `getStatus` steps leave it unchanged. -/
theorem startSync_mutual_exclusion :
    ∀ (s : ManagerState) (u : Nat), u ∉ s.locks →
      ((startSync u s).1 = .accepted ∧
        (startSync u (startSync u s).2).1 = .rejected) ∧
      (∀ (v : Nat) (t : ManagerState), applyApi (.status v) t = t) ∧
      (∀ (c : ApiCall) (t : ManagerState), applyApi c t ≠ t → ∃ w, c = .start w) := by
  intro s u hu
  refine ⟨⟨?_, ?_⟩, fun v t => rfl, ?_⟩
  · simp only [startSync]
    rw [if_neg (by simpa using hu)]
  · have h1 : (startSync u s).2 = ⟨u :: s.locks⟩ := by
      simp only [startSync]
      rw [if_neg (by simpa using hu)]
    rw [h1]
    simp [startSync]
  · intro c t hne
    cases c with
    | start w => exact ⟨w, rfl⟩
    | status v => exact absurd rfl hne

/-- Witness for C1 at a concrete state: user 7 racing against itself on an
empty lock table — the first call is accepted, the second rejected. -/
theorem startSync_mutual_exclusion_witness :
    (startSync 7 ⟨[]⟩).1 = .accepted ∧
    (startSync 7 (startSync 7 ⟨[]⟩).2).1 = .rejected :=
  (startSync_mutual_exclusion ⟨[]⟩ 7 (by decide)).1

/-! ## Lemmas about the sync job (C2) -/

/-- A batch produces exactly one outcome per message, whether the adapter
succeeds or fails. -/
theorem processBatch_length (adapter : List Nat → Except String (List ClsRecord))
    (batch : List Nat) : (processBatch adapter batch).length = batch.length := by
  unfold processBatch
  cases adapter batch with
  | error e => simp
  | ok recs => simp

/-- Splitting the outcomes by classification success loses none of them. -/
theorem outcomes_filter_split : ∀ (l : List Outcome),
    (l.filter (·.isClassified)).length + (l.filter fun o => !o.isClassified).length
      = l.length := by
  intro l
  induction l with
  | nil => rfl
  | cons o os ih =>
    cases h : o.isClassified <;> simp [List.filter_cons, h] <;> omega

/-- The per-message outcomes of a run cover exactly the unclassified
messages. -/
theorem outcomes_length (adapter : List Nat → Except String (List ClsRecord))
    (u : List Nat) :
    (((partitionBatches u).map (processBatch adapter)).join).length = u.length := by
  rw [List.length_join]
  have h1 : ((partitionBatches u).map (processBatch adapter)).map List.length =
      (partitionBatches u).map List.length := by
    rw [List.map_map]
    apply List.map_congr_left
    intro b _
    exact processBatch_length adapter b
  rw [h1]
  have h2 : ((partitionBatches u).map List.length).sum = (partitionBatches u).join.length := by
    rw [List.length_join]
  rw [h2]
  unfold partitionBatches
  rw [partitionAux_join u.length u le_rfl]

/-- The adapter of the spec's 30-message scenario: classify every message of
a full batch, fail on any shorter batch (so the second batch of 5 fails as a
whole). -/
def scenarioAdapter (b : List Nat) : Except String (List ClsRecord) :=
  if b.length == batchSize then .ok (b.map fun e => ⟨e, true⟩)
  else .error "adapter error"

/-- C2: a sync job reaches `FAILED` exactly when the fetch stage errors;
when the fetch succeeds the job always terminates `COMPLETED`, with one
outcome (classified or failed) per unclassified message; in the spec's
scenario — 0 known emails, 30 fetched, adapter erroring on the second batch —
the final snapshot is total=30, new=30, processed=25, failed=5 and the state
is `COMPLETED`, not `FAILED`.  (The Sync Job is modelled from the spec,
§4.1-§4.3.) -/
theorem syncJob_failed_only_on_fetch_error :
    (∀ (known : List (Nat × Bool)) (fetchRes : Except String (List Nat))
      (adapter : List Nat → Except String (List ClsRecord)),
      ((runSyncJob known fetchRes adapter).state = .FAILED ↔ ∃ e, fetchRes = .error e) ∧
      (∀ msgs, fetchRes = .ok msgs →
        (runSyncJob known fetchRes adapter).state = .COMPLETED ∧
        (runSyncJob known fetchRes adapter).snap.processed +
          (runSyncJob known fetchRes adapter).snap.failed =
          (((known.filter fun k => !k.2).map (·.1)) ++
            msgs.filter fun m => !(known.any fun k => k.1 == m)).length)) ∧
    runSyncJob [] (.ok (List.range 30)) scenarioAdapter =
      ⟨.COMPLETED, ⟨30, 25, 5, 30, 5⟩, none⟩ := by
  constructor
  · intro known fetchRes adapter
    constructor
    · cases fetchRes with
      | error e => simp [runSyncJob]
      | ok msgs => simp [runSyncJob]
    · intro msgs hok
      subst hok
      constructor
      · rfl
      · simp only [runSyncJob]
        rw [outcomes_filter_split, outcomes_length]
  · rfl

/-- Witness for C2 at the concrete scenario inputs: the hypothesis
`fetchRes = ok msgs` discharged at the 30-message fetch. -/
theorem syncJob_failed_only_on_fetch_error_witness :
    (runSyncJob [] (.ok (List.range 30)) scenarioAdapter).state = .COMPLETED ∧
    ¬ (runSyncJob [] (.ok (List.range 30)) scenarioAdapter).state = .FAILED := by
  have h := (syncJob_failed_only_on_fetch_error.1 [] (.ok (List.range 30)) scenarioAdapter)
  refine ⟨(h.2 (List.range 30) rfl).1, ?_⟩
  intro hf
  obtain ⟨e, he⟩ := h.1.mp hf
  exact absurd he (by simp)

/-! ## Lemmas about the Result Writer invariant (C3) -/

/-- Auxiliary invariant: every ClassificationResult row references an Email
row that exists (spec §3). -/
def ResultHasEmail (s : Store) : Prop :=
  ∀ p ∈ s.results, ∃ e ∈ s.emails, e.id = p.1

/-- The upserted key is present after an upsert. -/
theorem upsertResult_mem_self (id : Nat) (r : ClsRecord) (rs : List (Nat × ClsRecord)) :
    (id, r) ∈ upsertResult id r rs := by
  unfold upsertResult
  split
  next h =>
    obtain ⟨p, hp, hpid⟩ := List.any_eq_true.mp h
    refine List.mem_map.mpr ⟨p, hp, ?_⟩
    rw [if_pos hpid]
  next h =>
    simp

/-- Keys other than the upserted one are untouched by an upsert. -/
theorem upsertResult_mem_ne (id k : Nat) (hk : k ≠ id) (r r' : ClsRecord)
    (rs : List (Nat × ClsRecord)) :
    (k, r') ∈ upsertResult id r rs ↔ (k, r') ∈ rs := by
  unfold upsertResult
  split
  next h =>
    constructor
    · intro hm
      obtain ⟨p, hp, hpe⟩ := List.mem_map.mp hm
      by_cases hpid : p.1 == id
      · rw [if_pos hpid] at hpe
        cases hpe
        exact absurd rfl hk
      · rw [if_neg hpid] at hpe
        rwa [hpe] at hp
    · intro hm
      refine List.mem_map.mpr ⟨(k, r'), hm, ?_⟩
      rw [if_neg (by simpa using hk)]
  next h =>
    simp only [List.mem_append, List.mem_singleton]
    constructor
    · rintro (hm | hm)
      · exact hm
      · cases hm
        exact absurd rfl hk
    · intro hm
      exact Or.inl hm

/-- Every key present after an upsert is the upserted key or an original
key. -/
theorem upsertResult_mem_keys (id : Nat) (r : ClsRecord) (rs : List (Nat × ClsRecord))
    (p : Nat × ClsRecord) (hp : p ∈ upsertResult id r rs) :
    p.1 = id ∨ p ∈ rs := by
  unfold upsertResult at hp
  split at hp
  next h =>
    obtain ⟨q, hq, hqe⟩ := List.mem_map.mp hp
    by_cases hqid : q.1 == id
    · rw [if_pos hqid] at hqe
      left
      rw [← hqe]
    · rw [if_neg hqid] at hqe
      right
      rwa [hqe] at hq
  next h =>
    rcases List.mem_append.mp hp with hm | hm
    · exact Or.inr hm
    · left
      rw [List.mem_singleton.mp hm]

/-- One storage write preserves both invariants. -/
theorem storeInv_step (s : Store) (op : StoreOp)
    (h1 : ProcessedIffResult s) (h2 : ResultHasEmail s) :
    ProcessedIffResult (applyStoreOp s op) ∧ ResultHasEmail (applyStoreOp s op) := by
  cases op with
  | fetchNew id =>
    simp only [applyStoreOp]
    split
    next hex => exact ⟨h1, h2⟩
    next hex =>
      constructor
      · intro e he
        rcases List.mem_append.mp he with he | he
        · exact h1 e he
        · rw [List.mem_singleton.mp he]
          simp only [Bool.false_eq_true, false_iff]
          rintro ⟨r, hr⟩
          obtain ⟨e', he', hid⟩ := h2 (id, r) hr
          exact hex (List.any_eq_true.mpr ⟨e', he', by simpa using hid⟩)
      · intro p hp
        obtain ⟨e, he, hid⟩ := h2 p hp
        exact ⟨e, List.mem_append.mpr (Or.inl he), hid⟩
  | write id r =>
    simp only [applyStoreOp]
    split
    next hex =>
      obtain ⟨e0, he0, he0id⟩ := List.any_eq_true.mp hex
      constructor
      · intro e' he'
        obtain ⟨e, he, hee⟩ := List.mem_map.mp he'
        by_cases hid : e.id == id
        · rw [if_pos hid] at hee
          rw [← hee]
          simp only [true_iff]
          exact ⟨r, upsertResult_mem_self id r s.results⟩
        · rw [if_neg hid] at hee
          rw [← hee]
          have hne : e.id ≠ id := by simpa using hid
          constructor
          · intro hpr
            obtain ⟨r', hr'⟩ := (h1 e he).mp hpr
            exact ⟨r', (upsertResult_mem_ne id e.id hne r r' s.results).mpr hr'⟩
          · rintro ⟨r', hr'⟩
            exact (h1 e he).mpr ⟨r', (upsertResult_mem_ne id e.id hne r r' s.results).mp hr'⟩
      · intro p hp
        rcases upsertResult_mem_keys id r s.results p hp with hkey | hmem
        · refine ⟨⟨id, true⟩, ?_, by rw [hkey]⟩
          refine List.mem_map.mpr ⟨e0, he0, ?_⟩
          rw [if_pos he0id]
        · obtain ⟨e, he, hid⟩ := h2 p hmem
          by_cases heid : e.id == id
          · refine ⟨⟨id, true⟩, List.mem_map.mpr ⟨e, he, by rw [if_pos heid]⟩, ?_⟩
            rw [← hid]
            exact (show e.id = id by simpa using heid).symm
          · exact ⟨e, List.mem_map.mpr ⟨e, he, by rw [if_neg heid]⟩, hid⟩
    next hex => exact ⟨h1, h2⟩

/-- Both invariants hold along any run of storage writes. -/
theorem storeInv_run : ∀ (ops : List StoreOp) (s : Store),
    ProcessedIffResult s → ResultHasEmail s →
    ProcessedIffResult (ops.foldl applyStoreOp s) ∧
      ResultHasEmail (ops.foldl applyStoreOp s) := by
  intro ops
  induction ops with
  | nil => exact fun s h1 h2 => ⟨h1, h2⟩
  | cons op ops ih =>
    intro s h1 h2
    obtain ⟨h1', h2'⟩ := storeInv_step s op h1 h2
    exact ih (applyStoreOp s op) h1' h2'

/-- C3: after any sync run — any sequence of email creations and Result
Writer writes starting from empty storage — an Email row's processed flag is
true iff a ClassificationResult for it exists.  (Storage and the Result
Writer are modelled from the spec, §3, §4.2, §4.4.) -/
theorem processed_iff_result_invariant :
    ∀ ops : List StoreOp, ProcessedIffResult (runStore ops) := by
  intro ops
  exact (storeInv_run ops Store.empty (by intro e he; simp [Store.empty] at he)
    (by intro p hp; simp [Store.empty] at hp)).1

/-- Witness for C3 at a concrete run: after fetching emails 1 and 2 and the
Result Writer persisting a result for email 1, email 1's row is processed
and a result row for it exists, and email 2's row is unprocessed. -/
theorem processed_iff_result_invariant_witness :
    (⟨1, true⟩ : EmailRow) ∈ (runStore [.fetchNew 1, .fetchNew 2, .write 1 ⟨1, true⟩]).emails ∧
    (∃ r, (1, r) ∈ (runStore [.fetchNew 1, .fetchNew 2, .write 1 ⟨1, true⟩]).results) := by
  have h := processed_iff_result_invariant [.fetchNew 1, .fetchNew 2, .write 1 ⟨1, true⟩]
  have hmem : (⟨1, true⟩ : EmailRow) ∈
      (runStore [.fetchNew 1, .fetchNew 2, .write 1 ⟨1, true⟩]).emails := by decide
  exact ⟨hmem, (h ⟨1, true⟩ hmem).mp rfl⟩

/-! ## Lemmas about the HTML-extraction traversals (C6, C7, C8) -/

mutual

/-- Under decodable html data, the card traversal returns `null` or truthy
content, never the empty string. -/
theorem cardExtract_truthy_or_none : ∀ p : MimePart, htmlDecodesOk p = true →
    cardExtract p = none ∨ truthyOpt (cardExtract p) = true := by
  intro p hok
  cases p with
  | node mt d ps =>
    rw [htmlDecodesOk] at hok
    rw [Bool.and_eq_true] at hok
    obtain ⟨hhit, hlist⟩ := hok
    rw [cardExtract]
    split
    next hguard =>
      right
      have : isHtmlHit (.node mt d ps) = true := by
        simpa [isHtmlHit, MimePart.mime, MimePart.bodyData] using hguard
      rw [Bool.or_eq_true] at hhit
      rcases hhit with hh | hh
      · rw [this] at hh
        simp at hh
      · exact hh
    next hguard => exact cardScan_truthy_or_none ps hlist
termination_by structural p => p

/-- List version of `cardExtract_truthy_or_none`. -/
theorem cardScan_truthy_or_none : ∀ ps : List MimePart, htmlDecodesOkList ps = true →
    cardScan ps = none ∨ truthyOpt (cardScan ps) = true := by
  intro ps hok
  cases ps with
  | nil => left; rfl
  | cons p ps =>
    rw [htmlDecodesOkList] at hok
    rw [Bool.and_eq_true] at hok
    obtain ⟨hp, hps⟩ := hok
    rw [cardScan]
    split
    next h => right; exact h
    next h => exact cardScan_truthy_or_none ps hps
termination_by structural ps => ps

end

mutual

/-- Under decodable html data, the card traversal computes exactly the
specification's function: the decoded content of the first matching part in
depth-first preorder, `null` when none matches. -/
theorem cardExtract_eq_specFirst : ∀ p : MimePart, htmlDecodesOk p = true →
    cardExtract p = specFirstHtml p := by
  intro p hok
  cases p with
  | node mt d ps =>
    rw [htmlDecodesOk] at hok
    rw [Bool.and_eq_true] at hok
    obtain ⟨_, hlist⟩ := hok
    rw [cardExtract, specFirstHtml]
    split
    next hguard => rfl
    next hguard => exact cardScan_eq_specScan ps hlist
termination_by structural p => p

/-- List version of `cardExtract_eq_specFirst`. -/
theorem cardScan_eq_specScan : ∀ ps : List MimePart, htmlDecodesOkList ps = true →
    cardScan ps = specFirstHtmlScan ps := by
  intro ps hok
  cases ps with
  | nil => rfl
  | cons p ps =>
    rw [htmlDecodesOkList] at hok
    rw [Bool.and_eq_true] at hok
    obtain ⟨hp, hps⟩ := hok
    rw [cardScan, specFirstHtmlScan]
    rw [cardExtract_eq_specFirst p hp]
    cases hspec : specFirstHtml p with
    | none => simp [truthyOpt, cardScan_eq_specScan ps hps]
    | some v =>
      have htr : truthyOpt (some v) = true := by
        rcases cardExtract_truthy_or_none p hp with hn | ht
        · rw [cardExtract_eq_specFirst p hp, hspec] at hn
          cases hn
        · rwa [cardExtract_eq_specFirst p hp, hspec] at ht
      simp [htr]
termination_by structural ps => ps

end

/-- The payload of the C6 counterexample: a multipart message with two
`text/html` leaves, the first decoding to `"hi"`, the second to `"yo"`. -/
def c6Payload : MimePart :=
  .node (some "multipart/alternative") none
    [.node (some "text/html") (some "aGk") [],
     .node (some "text/html") (some "eW8") []]

/-- C6 counterexample: on a payload with two html leaves, the find-the-HTML
operation of `EmailViewer.tsx` returns the content of the *last* matching
leaf (`"yo"`), not the first (`"hi"`) as the claim states — its child loop
overwrites the html slot on every match. -/
theorem viewer_extract_not_first_match :
    specFirstHtml c6Payload = some "hi" ∧
    viewerExtractTop c6Payload = some "yo" ∧
    viewerExtractTop c6Payload ≠ specFirstHtml c6Payload := by
  refine ⟨rfl, rfl, by decide⟩

/-- C6 (amended): the email-card variant of the operation
(`LoginPage.tsx` 687-728) is a pure function returning the decoded content
of the first part matching `text/html` in depth-first preorder (`null` when
no part matches), provided every matching part's data decodes to non-empty
content; the `EmailViewer.tsx` variant instead returns the *last* matching
part's content, with a plain-text fallback. -/
theorem cardExtract_first_html_match :
    ∀ p : MimePart, htmlDecodesOk p = true → cardExtract p = specFirstHtml p :=
  cardExtract_eq_specFirst

/-- Witness for C6's amended theorem at a concrete payload: a single html
leaf decoding to `"hi"`. -/
theorem cardExtract_first_html_match_witness :
    cardExtract (.node (some "text/html") (some "aGk") []) =
      specFirstHtml (.node (some "text/html") (some "aGk") []) :=
  cardExtract_first_html_match (.node (some "text/html") (some "aGk") []) (by decide)

/-- The nested payload family realises every recursion depth: the chain of
depth `n` costs `n + 1` stacked recursive calls. -/
theorem nestedPayload_depth : ∀ n : Nat, viewerDepth (nestedPayload n) = n + 1 := by
  intro n
  induction n with
  | zero => rfl
  | succ n ih =>
    rw [nestedPayload, viewerDepth]
    rw [if_neg (by decide), if_neg (by decide)]
    rw [viewerDepthList, viewerDepthList]
    rw [ih]
    simp
    omega

/-- C7 counterexample: the traversal of the find-the-HTML operation is
recursive, and no bound on its call depth holds across payloads — the nested
payload family drives `viewerDepth` beyond every candidate bound. -/
theorem viewer_traversal_depth_unbounded :
    ¬ ∃ B : Nat, ∀ n : Nat, viewerDepth (nestedPayload n) ≤ B := by
  rintro ⟨B, hB⟩
  have h := hB (B + 1)
  rw [nestedPayload_depth] at h
  omega

/-- Every payload costs at least one recursive call. -/
theorem viewerDepth_pos : ∀ p : MimePart, 1 ≤ viewerDepth p := by
  intro p
  cases p with
  | node mt d ps =>
    rw [viewerDepth]
    split
    · omega
    · split
      · omega
      · omega

/-- Adequacy of the fuel-bounded child loop, given adequacy of the
fuel-bounded evaluator at the same fuel. -/
theorem viewerScanFuel_adequate (n : Nat)
    (hn : ∀ q : MimePart, viewerDepth q ≤ n → viewerExtractFuel n q = some (viewerExtract q)) :
    ∀ (ps : List MimePart) (h t : Option String), viewerDepthList ps ≤ n →
      viewerScanFuel (viewerExtractFuel n) ps h t = some (viewerScan ps h t) := by
  intro ps
  induction ps with
  | nil => intro h t _; rfl
  | cons p ps ih =>
    intro h t hd
    rw [viewerDepthList] at hd
    have hp : viewerDepth p ≤ n := le_trans (le_max_left _ _) hd
    have hps : viewerDepthList ps ≤ n := le_trans (le_max_right _ _) hd
    rw [viewerScanFuel, hn p hp, viewerScan]
    dsimp only
    split_ifs
    · exact ih _ _ hps
    · exact ih _ _ hps
    · exact ih _ _ hps

/-- C7 (amended): the traversal is recursive, not iterative — its call depth
grows without bound on adversarial payloads (see the counterexample) — but it
is a total function on every finite payload tree: evaluating under any stack
bound exceeding the payload's recursion depth succeeds and agrees with the
unbounded traversal. -/
theorem viewer_traversal_total_with_depth_fuel :
    ∀ (n : Nat) (p : MimePart), viewerDepth p ≤ n →
      viewerExtractFuel n p = some (viewerExtract p) := by
  intro n
  induction n with
  | zero =>
    intro p hp
    have := viewerDepth_pos p
    omega
  | succ n ih =>
    intro p hp
    cases p with
    | node mt d ps =>
      rw [viewerExtractFuel, viewerExtract]
      rw [viewerDepth] at hp
      split_ifs with hg hg2
      · rfl
      · rfl
      · rw [if_neg hg, if_neg hg2] at hp
        exact viewerScanFuel_adequate n ih ps none none (by omega)

/-- Witness for C7's amended theorem at a concrete payload: the depth-2
nested payload evaluated with stack bound 3. -/
theorem viewer_traversal_total_with_depth_fuel_witness :
    viewerExtractFuel 3 (nestedPayload 2) = some (viewerExtract (nestedPayload 2)) :=
  viewer_traversal_total_with_depth_fuel 3 (nestedPayload 2) (by decide)

mutual

/-- A truthy card-traversal result requires an html hit in the tree. -/
theorem cardExtract_truthy_hit : ∀ p : MimePart, truthyOpt (cardExtract p) = true →
    1 ≤ htmlHitCount p := by
  intro p ht
  cases p with
  | node mt d ps =>
    rw [cardExtract] at ht
    rw [htmlHitCount]
    split at ht
    next hguard =>
      rw [if_pos (by simpa [isHtmlHit, MimePart.mime, MimePart.bodyData] using hguard)]
      omega
    next hguard =>
      have := cardScan_truthy_hit ps ht
      omega
termination_by structural p => p

/-- List version of `cardExtract_truthy_hit`. -/
theorem cardScan_truthy_hit : ∀ ps : List MimePart, truthyOpt (cardScan ps) = true →
    1 ≤ htmlHitCountList ps := by
  intro ps ht
  cases ps with
  | nil => cases ht
  | cons p ps =>
    rw [cardScan] at ht
    rw [htmlHitCountList]
    split at ht
    next h =>
      have := cardExtract_truthy_hit p h
      omega
    next h =>
      have := cardScan_truthy_hit ps ht
      omega
termination_by structural ps => ps

end

mutual

/-- Without any html hit the card traversal returns `null`. -/
theorem cardExtract_no_hit : ∀ p : MimePart, htmlHitCount p = 0 →
    cardExtract p = none := by
  intro p h0
  cases p with
  | node mt d ps =>
    rw [htmlHitCount] at h0
    rw [cardExtract]
    split at h0
    next hhit => omega
    next hhit =>
      rw [if_neg (by simpa [isHtmlHit, MimePart.mime, MimePart.bodyData] using hhit)]
      exact cardScan_no_hit ps (by omega)
termination_by structural p => p

/-- List version of `cardExtract_no_hit`. -/
theorem cardScan_no_hit : ∀ ps : List MimePart, htmlHitCountList ps = 0 →
    cardScan ps = none := by
  intro ps h0
  cases ps with
  | nil => rfl
  | cons p ps =>
    rw [htmlHitCountList] at h0
    rw [cardScan]
    rw [cardExtract_no_hit p (by omega)]
    rw [if_neg (by simp [truthyOpt])]
    exact cardScan_no_hit ps (by omega)
termination_by structural ps => ps

end

mutual

/-- On payloads with no plain-text hit, at most one html hit, and decodable
html data, the viewer traversal computes the card traversal's result (and no
text fallback). -/
theorem viewerExtract_eq_card : ∀ p : MimePart,
    noPlainHit p = true → htmlDecodesOk p = true → htmlHitCount p ≤ 1 →
    viewerExtract p = { html := cardExtract p, text := none } := by
  intro p hnp hok hcnt
  cases p with
  | node mt d ps =>
    rw [noPlainHit, Bool.and_eq_true] at hnp
    obtain ⟨hnp1, hnpl⟩ := hnp
    rw [htmlDecodesOk, Bool.and_eq_true] at hok
    obtain ⟨hok1, hokl⟩ := hok
    rw [htmlHitCount] at hcnt
    rw [viewerExtract, cardExtract]
    by_cases hhit : (jsStartsWith (mt.getD "") "text/html" && truthyOpt d) = true
    · have hdec : truthyOpt (decodeBase64 (d.getD "")) = true := by
        rw [Bool.or_eq_true] at hok1
        rcases hok1 with h | h
        · rw [show isHtmlHit (.node mt d ps) = true by
            simpa [isHtmlHit, MimePart.mime, MimePart.bodyData] using hhit] at h
          simp at h
        · exact h
      rw [if_pos (by rw [Bool.and_eq_true]; exact ⟨hhit, hdec⟩), if_pos hhit]
    · rw [if_neg (by simp [Bool.and_eq_true]; intro h1 h2; exact absurd (by rw [Bool.and_eq_true]; exact ⟨h1, h2⟩) hhit),
        if_neg hhit]
      have hplain : (jsStartsWith (mt.getD "") "text/plain" && truthyOpt d) = false := by
        cases hpl : isPlainHit (MimePart.node mt d ps) with
        | false => exact hpl
        | true =>
          rw [hpl] at hnp1
          simp at hnp1
      rw [if_neg (by rw [hplain]; simp)]
      have hcntl : htmlHitCountList ps ≤ 1 := by
        split at hcnt <;> omega
      rw [viewerScan_eq_card ps hnpl hokl hcntl none]
      rcases cardScan_truthy_or_none ps hokl with hn | ht
      · rw [hn]
        simp [truthyOpt]
      · rw [if_pos ht]
termination_by structural p => p

/-- List version of `viewerExtract_eq_card`: the viewer's child loop keeps
the unique truthy child result when there is one, its html accumulator
otherwise, and never sets the text slot. -/
theorem viewerScan_eq_card : ∀ ps : List MimePart,
    noPlainHitList ps = true → htmlDecodesOkList ps = true → htmlHitCountList ps ≤ 1 →
    ∀ h : Option String, viewerScan ps h none =
      { html := if truthyOpt (cardScan ps) then cardScan ps else h, text := none } := by
  intro ps hnp hok hcnt h
  cases ps with
  | nil => simp [viewerScan, cardScan, truthyOpt]
  | cons p ps =>
    rw [noPlainHitList, Bool.and_eq_true] at hnp
    obtain ⟨hnp1, hnpl⟩ := hnp
    rw [htmlDecodesOkList, Bool.and_eq_true] at hok
    obtain ⟨hok1, hokl⟩ := hok
    rw [htmlHitCountList] at hcnt
    rw [viewerScan, cardScan]
    rw [viewerExtract_eq_card p hnp1 hok1 (by omega)]
    by_cases hc : truthyOpt (cardExtract p) = true
    · have h1 : 1 ≤ htmlHitCount p := cardExtract_truthy_hit p hc
      have h0 : htmlHitCountList ps = 0 := by omega
      rw [if_pos hc]
      rw [viewerScan_eq_card ps hnpl hokl (by omega) (cardExtract p)]
      rw [cardScan_no_hit ps h0]
      rw [if_neg (by decide)]
      rw [if_pos hc, if_pos hc]
    · rw [if_neg hc, if_neg hc]
      rw [if_neg (by simp [truthyOpt])]
      exact viewerScan_eq_card ps hnpl hokl (by omega) h
termination_by structural ps => ps

end

/-- The first payload of the C8 counterexample: two html leaves, decoding to
`"hi"` and `"yo"`. -/
def c8PayloadTwoHtml : MimePart :=
  .node (some "multipart/mixed") none
    [.node (some "text/html") (some "aGk") [],
     .node (some "text/html") (some "eW8") []]

/-- The second payload of the C8 counterexample: a single plain-text leaf
decoding to `"hi"`, no html part. -/
def c8PayloadPlainOnly : MimePart :=
  .node (some "text/plain") (some "aGk") []

/-- C8 counterexample: the two extraction functions disagree — with several
html parts the viewer returns the last (`"yo"`) and the card the first
(`"hi"`), and with only plain-text content the viewer falls back to it while
the card returns `null`. -/
theorem extract_functions_disagree :
    (viewerExtractTop c8PayloadTwoHtml = some "yo" ∧
      cardExtract c8PayloadTwoHtml = some "hi") ∧
    (viewerExtractTop c8PayloadPlainOnly = some "hi" ∧
      cardExtract c8PayloadPlainOnly = none) :=
  ⟨⟨rfl, rfl⟩, ⟨rfl, rfl⟩⟩

/-- C8 (amended): the two HTML-extraction functions agree on every payload
that carries no `text/plain` part with data, at most one `text/html` part
with data, and whose html data decodes to non-empty content; on payloads
with several html parts, or with only plain-text content, they differ (see
the counterexample). -/
theorem extract_functions_agree_on_single_html :
    ∀ p : MimePart,
      noPlainHit p = true → htmlDecodesOk p = true → htmlHitCount p ≤ 1 →
      viewerExtractTop p = cardExtract p := by
  intro p hnp hok hcnt
  rw [viewerExtractTop]
  rw [viewerExtract_eq_card p hnp hok hcnt]
  by_cases hc : truthyOpt (cardExtract p) = true
  · rw [if_pos hc]
  · rw [if_neg hc]
    rcases cardExtract_truthy_or_none p hok with hn | ht
    · rw [hn]
    · exact absurd ht hc

/-- Witness for C8's amended theorem at a concrete payload: a multipart
message with exactly one html leaf. -/
theorem extract_functions_agree_on_single_html_witness :
    viewerExtractTop (.node (some "multipart/mixed") none
        [.node (some "text/html") (some "aGk") []]) =
      cardExtract (.node (some "multipart/mixed") none
        [.node (some "text/html") (some "aGk") []]) :=
  extract_functions_agree_on_single_html
    (.node (some "multipart/mixed") none [.node (some "text/html") (some "aGk") []])
    (by decide) (by decide) (by decide)

/-! ## Safety predicates and lemmas for the sanitiser (C9) -/

mutual

/-- No element of the tree has tag `t` (compared case-insensitively, `t`
given in lower case). -/
def noTagNode (t : String) : DomNode → Bool
| .elem tag _ cs => !(asciiLower tag == t) && noTagList t cs
| .text _ => true
termination_by structural n => n

/-- `noTagNode` over a forest. -/
def noTagList (t : String) : List DomNode → Bool
| [] => true
| n :: ns => noTagNode t n && noTagList t ns
termination_by structural ns => ns

end

/-- An attribute list is clean when no attribute name starts with `on` and
none is named `class` or `id`. -/
def attrsClean (attrs : List Attr) : Bool :=
  attrs.all fun a => !(jsStartsWith a.name "on") && !(a.name == "class") && !(a.name == "id")

mutual

/-- Every element of the tree carries a clean attribute list. -/
def attrsCleanNode : DomNode → Bool
| .elem _ attrs cs => attrsClean attrs && attrsCleanList cs
| .text _ => true
termination_by structural n => n

/-- `attrsCleanNode` over a forest. -/
def attrsCleanList : List DomNode → Bool
| [] => true
| n :: ns => attrsCleanNode n && attrsCleanList ns
termination_by structural ns => ns

end

mutual

/-- Removing tag `t` leaves no element with tag `t` at any depth. -/
theorem noTag_removeTagNode (t : String) : ∀ n : DomNode,
    isTagCI t n = false → noTagNode t (removeTagNode t n) = true := by
  intro n hn
  cases n with
  | text s => rfl
  | elem tag a cs =>
    rw [removeTagNode, noTagNode, Bool.and_eq_true]
    constructor
    · simpa [isTagCI] using hn
    · exact noTag_removeTagList t cs
termination_by structural n => n

/-- List version of `noTag_removeTagNode`. -/
theorem noTag_removeTagList (t : String) : ∀ ns : List DomNode,
    noTagList t (removeTagList t ns) = true := by
  intro ns
  cases ns with
  | nil => rfl
  | cons n ns =>
    rw [removeTagList]
    split
    next h => exact noTag_removeTagList t ns
    next h =>
      rw [noTagList, Bool.and_eq_true]
      exact ⟨noTag_removeTagNode t n (by simpa using h), noTag_removeTagList t ns⟩
termination_by structural ns => ns

end

mutual

/-- Removing some other tag preserves the absence of tag `t`. -/
theorem noTag_removeTagNode_other (t u : String) : ∀ n : DomNode,
    noTagNode t n = true → noTagNode t (removeTagNode u n) = true := by
  intro n hn
  cases n with
  | text s => rfl
  | elem tag a cs =>
    rw [noTagNode, Bool.and_eq_true] at hn
    rw [removeTagNode, noTagNode, Bool.and_eq_true]
    exact ⟨hn.1, noTag_removeTagList_other t u cs hn.2⟩
termination_by structural n => n

/-- List version of `noTag_removeTagNode_other`. -/
theorem noTag_removeTagList_other (t u : String) : ∀ ns : List DomNode,
    noTagList t ns = true → noTagList t (removeTagList u ns) = true := by
  intro ns hns
  cases ns with
  | nil => rfl
  | cons n ns =>
    rw [noTagList, Bool.and_eq_true] at hns
    rw [removeTagList]
    split
    next h => exact noTag_removeTagList_other t u ns hns.2
    next h =>
      rw [noTagList, Bool.and_eq_true]
      exact ⟨noTag_removeTagNode_other t u n hns.1, noTag_removeTagList_other t u ns hns.2⟩
termination_by structural ns => ns

end

mutual

/-- Removing empty elements preserves the absence of tag `t`. -/
theorem noTag_removeEmptyNode (t : String) : ∀ n : DomNode,
    noTagNode t n = true → noTagNode t (removeEmptyNode n) = true := by
  intro n hn
  cases n with
  | text s => rfl
  | elem tag a cs =>
    rw [noTagNode, Bool.and_eq_true] at hn
    rw [removeEmptyNode, noTagNode, Bool.and_eq_true]
    exact ⟨hn.1, noTag_removeEmptyList t cs hn.2⟩
termination_by structural n => n

/-- List version of `noTag_removeEmptyNode`. -/
theorem noTag_removeEmptyList (t : String) : ∀ ns : List DomNode,
    noTagList t ns = true → noTagList t (removeEmptyList ns) = true := by
  intro ns hns
  cases ns with
  | nil => rfl
  | cons n ns =>
    rw [noTagList, Bool.and_eq_true] at hns
    rw [removeEmptyList]
    split
    next h => exact noTag_removeEmptyList t ns hns.2
    next h =>
      rw [noTagList, Bool.and_eq_true]
      exact ⟨noTag_removeEmptyNode t n hns.1, noTag_removeEmptyList t ns hns.2⟩
termination_by structural ns => ns

end

mutual

/-- The attribute sweep preserves every tag-based absence predicate. -/
theorem noTag_cleanAttrsNode (t : String) (f : String → String) : ∀ n : DomNode,
    noTagNode t n = true → noTagNode t (cleanAttrsNode f n) = true := by
  intro n hn
  cases n with
  | text s => rfl
  | elem tag a cs =>
    rw [noTagNode, Bool.and_eq_true] at hn
    rw [cleanAttrsNode, noTagNode, Bool.and_eq_true]
    exact ⟨hn.1, noTag_cleanAttrsList t f cs hn.2⟩
termination_by structural n => n

/-- List version of `noTag_cleanAttrsNode`. -/
theorem noTag_cleanAttrsList (t : String) (f : String → String) : ∀ ns : List DomNode,
    noTagList t ns = true → noTagList t (cleanAttrsList f ns) = true := by
  intro ns hns
  cases ns with
  | nil => rfl
  | cons n ns =>
    rw [noTagList, Bool.and_eq_true] at hns
    rw [cleanAttrsList, noTagList, Bool.and_eq_true]
    exact ⟨noTag_cleanAttrsNode t f n hns.1, noTag_cleanAttrsList t f ns hns.2⟩
termination_by structural ns => ns

end

/-- The handler/`class`/`id` sweep leaves only clean attributes. -/
theorem attrsClean_filter_dropped (attrs : List Attr) :
    attrsClean (attrs.filter fun a => !isDroppedAttr a) = true := by
  rw [attrsClean, List.all_eq_true]
  intro a ha
  rw [List.mem_filter] at ha
  obtain ⟨_, hd⟩ := ha
  rw [Bool.not_eq_true'] at hd
  rw [isDroppedAttr] at hd
  simp only [Bool.or_eq_false_iff] at hd
  obtain ⟨⟨⟨h1, _⟩, h3⟩, h4⟩ := hd
  rw [h1, h3, h4]
  rfl

/-- Setting an attribute with a clean name preserves cleanliness. -/
theorem attrsClean_setAttr (nm v : String)
    (hnm : (!(jsStartsWith nm "on") && !(nm == "class") && !(nm == "id")) = true)
    (attrs : List Attr) (h : attrsClean attrs = true) :
    attrsClean (setAttr nm v attrs) = true := by
  rw [setAttr]
  split
  · rw [attrsClean, List.all_eq_true]
    intro a ha
    rw [List.mem_map] at ha
    obtain ⟨b, hb, hba⟩ := ha
    by_cases hbn : (b.name == nm) = true
    · rw [if_pos hbn] at hba
      rw [← hba]
      exact hnm
    · rw [if_neg hbn] at hba
      rw [← hba]
      rw [attrsClean, List.all_eq_true] at h
      exact h b hb
  · rw [attrsClean, List.all_eq_true]
    intro a ha
    rcases List.mem_append.mp ha with hm | hm
    · rw [attrsClean, List.all_eq_true] at h
      exact h a hm
    · rw [List.mem_singleton.mp hm]
      exact hnm

/-- The per-element attribute rewrite always yields a clean attribute
list, whatever the inline-style cleaning chain does. -/
theorem attrsClean_cleanAttrs (f : String → String) (tag : String) (attrs : List Attr) :
    attrsClean (cleanAttrs f tag attrs) = true := by
  rw [cleanAttrs]
  have h1 : attrsClean (attrs.filter fun a => !isDroppedAttr a) = true :=
    attrsClean_filter_dropped attrs
  split
  next himg =>
    have h2 := attrsClean_setAttr "loading" "lazy" (by decide) _ h1
    have h3 := attrsClean_setAttr "style"
      ("max-width: 100%; height: auto; display: block; " ++
        getAttrD "style" (List.filter (fun a => !isDroppedAttr a) attrs)) (by decide) _ h2
    dsimp only
    split
    next hsty =>
      split
      next hlen => exact attrsClean_setAttr "style" _ (by decide) _ h3
      next hlen =>
        rw [attrsClean, List.all_eq_true] at h3 ⊢
        intro a ha
        exact h3 a (List.mem_of_mem_filter ha)
    next hsty => exact h3
  next himg =>
    dsimp only
    split
    next hsty =>
      split
      next hlen => exact attrsClean_setAttr "style" _ (by decide) _ h1
      next hlen =>
        rw [attrsClean, List.all_eq_true] at h1 ⊢
        intro a ha
        exact h1 a (List.mem_of_mem_filter ha)
    next hsty => exact h1

mutual

/-- After the attribute sweep every element of the tree is clean. -/
theorem attrsClean_cleanAttrsNode (f : String → String) : ∀ n : DomNode,
    attrsCleanNode (cleanAttrsNode f n) = true := by
  intro n
  cases n with
  | text s => rfl
  | elem tag a cs =>
    rw [cleanAttrsNode, attrsCleanNode, Bool.and_eq_true]
    exact ⟨attrsClean_cleanAttrs f tag a, attrsClean_cleanAttrsList f cs⟩
termination_by structural n => n

/-- List version of `attrsClean_cleanAttrsNode`. -/
theorem attrsClean_cleanAttrsList (f : String → String) : ∀ ns : List DomNode,
    attrsCleanList (cleanAttrsList f ns) = true := by
  intro ns
  cases ns with
  | nil => rfl
  | cons n ns =>
    rw [cleanAttrsList, attrsCleanList, Bool.and_eq_true]
    exact ⟨attrsClean_cleanAttrsNode f n, attrsClean_cleanAttrsList f ns⟩
termination_by structural ns => ns

end

/-- The element-level sweeps leave a forest with no `script` element, no
`style` element, and only clean attribute lists, for every input forest and
every inline-style cleaning chain. -/
theorem sanitizeDomSweeps_safe :
    ∀ (cleanStyle : String → String) (input : List DomNode),
      noTagList "script" (sanitizeDomSweeps cleanStyle input) = true ∧
      noTagList "style" (sanitizeDomSweeps cleanStyle input) = true ∧
      attrsCleanList (sanitizeDomSweeps cleanStyle input) = true := by
  intro f input
  refine ⟨?_, ?_, ?_⟩
  · have h1 := noTag_removeTagList "script" input
    have h2 := noTag_removeTagList_other "script" "style" _ h1
    have h3 := noTag_removeEmptyList "script" _ h2
    exact noTag_cleanAttrsList "script" f _ h3
  · have h2 := noTag_removeTagList "style" (removeTagList "script" input)
    have h3 := noTag_removeEmptyList "style" _ h2
    exact noTag_cleanAttrsList "style" f _ h3
  · exact attrsClean_cleanAttrsList f
      (removeEmptyList (removeTagList "style" (removeTagList "script" input)))

/-- The parsed DOM of the input
`<div title="a></div><script>alert(1)</script>">B</div>`: a single `div`
whose `title` attribute value carries quoted markup, containing the text
`B`. -/
def attackDiv : DomNode :=
  .elem "div" [⟨"title", "a></div><script>alert(1)</script>"⟩] [.text "B"]

/-- C9: the element-level sweeps of `sanitizeHtml` are safe on every input
(no `script`/`style` elements, no `on`-handler, `class` or `id` attributes
survive them) — but the final cleanup, three regular-expression replacements
run on the *serialised* HTML, defeats them: serialisation leaves `<` and `>`
unescaped inside attribute values, so on `attackDiv` (which every sweep
passes through intact, `title` being a harmless attribute name) the leading
`^(\s*<div[^>]*>\s*<\/div>\s*)+` expression matches `<div title="a></div>` —
the `>` and `</div>` both inside the attribute value — and deletes it,
returning a string that carries a live `script` element.  The output of
`sanitizeHtml` therefore violates the claimed property, against the
function's own documented intent. -/
theorem sanitizeHtml_script_splice :
    (∀ (cleanStyle : String → String) (input : List DomNode),
      noTagList "script" (sanitizeDomSweeps cleanStyle input) = true ∧
      attrsCleanList (sanitizeDomSweeps cleanStyle input) = true) ∧
    serializeList (sanitizeDomSweeps id [attackDiv]) =
      "<div title=\"a></div><script>alert(1)</script>\">B</div>" ∧
    sanitizeHtml id [attackDiv] = "<script>alert(1)</script>\">B</div>" ∧
    ("<script>".data).IsInfix (sanitizeHtml id [attackDiv]).data := by
  refine ⟨fun f input => ⟨(sanitizeDomSweeps_safe f input).1,
    (sanitizeDomSweeps_safe f input).2.2⟩, rfl, rfl, by decide⟩

end Pare
